import Mathlib

/-!
Verification of the nextjs-issue-tracker aggregation core
(`src/pages/api/history.ts` and `src/pages/api/populate.ts`).

Dates are modelled as integers counting calendar days (day numbers), and
timestamps as integers counting seconds; `isoDate` truncates a timestamp to
its calendar day. The Daily Aggregator, the Issue Fetcher's pagination loop
and the persistence error mapping are embedded directly from the source;
the helpers `isoDate` / `eachDayUntilToday` (module `utils`) and the Prisma
persistence gateway are not part of the source tree and are modelled from
the specification, as marked on their doc comments.
-/

/-- Modelled from the spec: `isoDate` (module `utils`, not in the source tree)
renders a timestamp as an ISO 8601 calendar date with no time component.
We model timestamps as integer seconds and dates as integer day numbers,
so `isoDate` is floor division by 86400. -/
def isoDate (t : Int) : Int := t.fdiv 86400

/-- Modelled from the spec: `eachDayUntilToday` (module `utils`, not in the
source tree) lists every calendar day from the start date through today,
inclusive, in chronological order. -/
def eachDayUntilToday (start today : Int) : List Int :=
  (List.range (today + 1 - start).toNat).map (fun (n : Nat) => start + (n : Int))

/-- An issue, as accumulated by `getIssues`: a creation timestamp and an
optional closing timestamp (`Pick<Issue, "created_at" | "closed_at">`). -/
structure Issue where
  created_at : Int
  closed_at : Option Int
deriving DecidableEq, Repr

/-- A persisted Day Record's payload: `{ totalOpened, totalClosed }`. -/
structure DayTotals where
  totalOpened : Int
  totalClosed : Int
deriving DecidableEq, Repr

/-- `issues.filter((i) => isoDate(new Date(i.created_at)) === date)`. -/
def issuesOpenedOn (issues : List Issue) (date : Int) : List Issue :=
  issues.filter (fun i => decide (isoDate i.created_at = date))

/-- `issues.filter((i) => i.closed_at && isoDate(new Date(i.closed_at)) === date)`. -/
def issuesClosedOn (issues : List Issue) (date : Int) : List Issue :=
  issues.filter (fun i =>
    match i.closed_at with
    | some c => decide (isoDate c = date)
    | none => false)

/-- The Daily Aggregator's per-day loop (history.ts lines 42-61): walk the
date keys in insertion (chronological) order carrying the two running
accumulators, and store the accumulator values for each date. -/
def aggregateLoop (issues : List Issue) : List Int → Int → Int → List (Int × DayTotals)
  | [], _, _ => []
  | date :: rest, openedAcc, closedAcc =>
    let issuesOpened := issuesOpenedOn issues date
    let issuesClosed := issuesClosedOn issues date
    let closedAcc2 := closedAcc + (issuesClosed.length : Int)
    let openedAcc2 :=
      if issuesOpened.length ≠ 0 then openedAcc + (issuesOpened.length : Int) else openedAcc
    let openedAcc3 := openedAcc2 - (issuesClosed.length : Int)
    (date, ⟨openedAcc3, closedAcc2⟩) :: aggregateLoop issues rest openedAcc3 closedAcc2

/-- The Daily Aggregator: build one entry per day of `[start, today]` and run
the accumulator loop, both accumulators starting at 0. -/
def aggregate (issues : List Issue) (start today : Int) : List (Int × DayTotals) :=
  aggregateLoop issues (eachDayUntilToday start today) 0 0

/-- `FIRST_COMMIT_DATE = new Date("2016-10-05")`, as a day number
(2016-10-05 is day 17079 since the Unix epoch). -/
def FIRST_COMMIT_DATE : Int := 17079

/-- Number of issues whose creation date falls in the day range `[lo, hi]`. -/
def openedInRange (issues : List Issue) (lo hi : Int) : Nat :=
  issues.countP (fun i => decide (lo ≤ isoDate i.created_at ∧ isoDate i.created_at ≤ hi))

/-- Number of issues closed, with closing date in the day range `[lo, hi]`. -/
def closedInRange (issues : List Issue) (lo hi : Int) : Nat :=
  issues.countP (fun i =>
    match i.closed_at with
    | some c => decide (lo ≤ isoDate c ∧ isoDate c ≤ hi)
    | none => false)

theorem accum_if_eq (o : Int) (n : Nat) :
    (if n ≠ 0 then o + (n : Int) else o) = o + (n : Int) := by
  by_cases h : n = 0 <;> simp [h]

theorem issuesOpenedOn_length (issues : List Issue) (d : Int) :
    (issuesOpenedOn issues d).length = openedInRange issues d d := by
  rw [issuesOpenedOn, openedInRange, ← List.countP_eq_length_filter]
  apply List.countP_congr
  intro i _
  simp only [decide_eq_true_eq]
  omega

theorem issuesClosedOn_length (issues : List Issue) (d : Int) :
    (issuesClosedOn issues d).length = closedInRange issues d d := by
  rw [issuesClosedOn, closedInRange, ← List.countP_eq_length_filter]
  apply List.countP_congr
  intro i _
  cases i.closed_at with
  | none => simp
  | some c =>
    simp only [decide_eq_true_eq]
    omega

theorem openedInRange_split (issues : List Issue) (lo hi : Int) (h : lo ≤ hi) :
    openedInRange issues lo hi = openedInRange issues lo lo + openedInRange issues (lo + 1) hi := by
  induction issues with
  | nil => rfl
  | cons i rest ih =>
    simp only [openedInRange, List.countP_cons] at ih ⊢
    rw [ih]
    by_cases ha : lo ≤ isoDate i.created_at <;>
      by_cases hb : isoDate i.created_at ≤ lo <;>
        by_cases hc : lo + 1 ≤ isoDate i.created_at <;>
          by_cases hd : isoDate i.created_at ≤ hi <;>
            simp [ha, hb, hc, hd] <;> omega

theorem closedInRange_split (issues : List Issue) (lo hi : Int) (h : lo ≤ hi) :
    closedInRange issues lo hi = closedInRange issues lo lo + closedInRange issues (lo + 1) hi := by
  induction issues with
  | nil => rfl
  | cons i rest ih =>
    simp only [closedInRange, List.countP_cons] at ih ⊢
    rw [ih]
    cases hcl : i.closed_at with
    | none => simp
    | some c =>
      by_cases ha : lo ≤ isoDate c <;>
        by_cases hb : isoDate c ≤ lo <;>
          by_cases hc : lo + 1 ≤ isoDate c <;>
            by_cases hd : isoDate c ≤ hi <;>
              simp [ha, hb, hc, hd] <;> omega

theorem eachDay_nil (s t : Int) (h : t < s) : eachDayUntilToday s t = [] := by
  have h0 : (t + 1 - s).toNat = 0 := by omega
  simp [eachDayUntilToday, h0]

theorem eachDay_cons (s t : Int) (h : s ≤ t) :
    eachDayUntilToday s t = s :: eachDayUntilToday (s + 1) t := by
  unfold eachDayUntilToday
  have h1 : (t + 1 - s).toNat = (t + 1 - (s + 1)).toNat + 1 := by omega
  rw [h1, List.range_succ_eq_map, List.map_cons, List.map_map]
  simp only [Nat.cast_zero, add_zero, List.cons.injEq, true_and]
  apply List.map_congr_left
  intro a _
  simp only [Function.comp_apply, Nat.succ_eq_add_one]
  push_cast
  ring

theorem mem_eachDay (s t d : Int) : d ∈ eachDayUntilToday s t ↔ s ≤ d ∧ d ≤ t := by
  unfold eachDayUntilToday
  simp only [List.mem_map, List.mem_range]
  constructor
  · rintro ⟨i, hi, rfl⟩
    omega
  · rintro ⟨h1, h2⟩
    exact ⟨(d - s).toNat, by omega, by omega⟩

theorem eachDay_nodup (s t : Int) : (eachDayUntilToday s t).Nodup := by
  apply List.Nodup.map
  · intro a b hab
    simp only at hab
    omega
  · exact List.nodup_range _

theorem aggregateLoop_shift (issues : List Issue) (dates : List Int) :
    ∀ o c : Int,
      aggregateLoop issues dates o c =
        (aggregateLoop issues dates 0 0).map
          (fun p => (p.1, ⟨o + p.2.totalOpened, c + p.2.totalClosed⟩)) := by
  induction dates with
  | nil =>
    intro o c
    rfl
  | cons d rest ih =>
    intro o c
    simp only [aggregateLoop, accum_if_eq, List.map_cons, List.cons.injEq]
    generalize (((issuesOpenedOn issues d).length : Int)) = no
    generalize (((issuesClosedOn issues d).length : Int)) = nc
    refine ⟨?_, ?_⟩
    · simp only [Prod.mk.injEq, DayTotals.mk.injEq, true_and]
      omega
    · rw [ih (o + no - nc) (c + nc), ih (0 + no - nc) (0 + nc), List.map_map]
      apply List.map_congr_left
      intro p _
      simp only [Function.comp_apply, Prod.mk.injEq, DayTotals.mk.injEq, true_and]
      omega

/-- The Day Record the aggregation stores for date `d` of a range starting at
`s`: cumulative opened-minus-closed and cumulative closed counts over `[s, d]`. -/
def dayEntry (issues : List Issue) (s d : Int) : Int × DayTotals :=
  (d, ⟨(openedInRange issues s d : Int) - (closedInRange issues s d : Int),
       (closedInRange issues s d : Int)⟩)

theorem aggregate_closedForm_aux (issues : List Issue) :
    ∀ (n : Nat) (s t : Int), (t + 1 - s).toNat = n →
      aggregate issues s t = (eachDayUntilToday s t).map (dayEntry issues s) := by
  intro n
  induction n with
  | zero =>
    intro s t hn
    have hts : t < s := by omega
    rw [aggregate, eachDay_nil _ _ hts]
    rfl
  | succ n ih =>
    intro s t hn
    have hst : s ≤ t := by omega
    rw [aggregate, eachDay_cons _ _ hst]
    simp only [aggregateLoop, accum_if_eq, List.map_cons, List.cons.injEq]
    refine ⟨?_, ?_⟩
    · simp only [dayEntry, Prod.mk.injEq, DayTotals.mk.injEq, true_and,
        issuesOpenedOn_length, issuesClosedOn_length]
      omega
    · rw [aggregateLoop_shift]
      have hrec : aggregateLoop issues (eachDayUntilToday (s + 1) t) 0 0 =
          (eachDayUntilToday (s + 1) t).map (dayEntry issues (s + 1)) :=
        ih (s + 1) t (by omega)
      rw [hrec, List.map_map]
      apply List.map_congr_left
      intro d hd
      have hsd : s + 1 ≤ d ∧ d ≤ t := (mem_eachDay (s + 1) t d).mp hd
      have hOsplit := openedInRange_split issues s d (by omega)
      have hCsplit := closedInRange_split issues s d (by omega)
      simp only [Function.comp_apply, dayEntry, Prod.mk.injEq, DayTotals.mk.injEq, true_and,
        issuesOpenedOn_length, issuesClosedOn_length]
      omega

/-- Closed form of the Daily Aggregator: the output maps each day `d` of
`[start, today]` to cumulative interval counts over `[start, d]`. -/
theorem aggregate_closedForm (issues : List Issue) (s t : Int) :
    aggregate issues s t = (eachDayUntilToday s t).map (dayEntry issues s) :=
  aggregate_closedForm_aux issues (t + 1 - s).toNat s t rfl

theorem closedInRange_mono (issues : List Issue) (s : Int) {d e : Int} (h : d ≤ e) :
    closedInRange issues s d ≤ closedInRange issues s e := by
  apply List.countP_mono_left
  intro i _ hi
  cases hc : i.closed_at with
  | none => simp [hc] at hi
  | some c =>
    simp only [hc, decide_eq_true_eq] at hi ⊢
    omega

/-- C1 (counterexample): an issue created before the start date and closed
inside the range drives the opened accumulator, and hence the stored
`totalOpened`, negative: one issue created on day -1 and closed on day 0,
aggregated over the one-day range [0, 0], stores `totalOpened = -1`. -/
theorem C1_counterexample :
    ¬ ∀ p ∈ aggregate [⟨-86400, some 0⟩] 0 0, 0 ≤ p.2.totalOpened := by
  decide

/-- C1 (amended): the aggregation never stores a negative `totalOpened`
provided every issue is created on or after the start date and, when closed,
is closed no earlier than the day it was created. -/
theorem C1_totalOpened_nonneg (issues : List Issue) (s t : Int)
    (h : ∀ i ∈ issues, s ≤ isoDate i.created_at ∧
      ∀ c ∈ i.closed_at, isoDate i.created_at ≤ isoDate c) :
    ∀ p ∈ aggregate issues s t, 0 ≤ p.2.totalOpened := by
  intro p hp
  rw [aggregate_closedForm] at hp
  obtain ⟨d, hd, rfl⟩ := List.mem_map.mp hp
  simp only [dayEntry]
  have hmono : closedInRange issues s d ≤ openedInRange issues s d := by
    apply List.countP_mono_left
    intro i hi hci
    have hins := h i hi
    cases hc : i.closed_at with
    | none => simp [hc] at hci
    | some c =>
      simp only [hc, decide_eq_true_eq] at hci
      have hcc := hins.2 c (by simp [hc])
      simp only [decide_eq_true_eq]
      omega
  omega

theorem C1_witness :
    (∀ i ∈ ([⟨0, some 86400⟩] : List Issue), (0 : Int) ≤ isoDate i.created_at ∧
      ∀ c ∈ i.closed_at, isoDate i.created_at ≤ isoDate c) ∧
    ∀ p ∈ aggregate [⟨0, some 86400⟩] 0 1, 0 ≤ p.2.totalOpened :=
  ⟨by decide, C1_totalOpened_nonneg [⟨0, some 86400⟩] 0 1 (by decide)⟩

/-- C2 (counterexample): on the spec's first worked example (issue created
2016-10-05, closed 2016-10-06, range 2016-10-05 through 2016-10-07) the
stored `totalOpened` decreases from 1 to 0 between consecutive days, so
`totalOpened` is not monotonically non-decreasing. -/
theorem C2_counterexample :
    ¬ List.Chain'
        (fun p q => p.2.totalOpened ≤ q.2.totalOpened ∧ p.2.totalClosed ≤ q.2.totalClosed)
        (aggregate [⟨1475625600, some 1475712000⟩] 17079 17081) := by
  have heval : aggregate [⟨1475625600, some 1475712000⟩] 17079 17081 =
      [(17079, ⟨1, 0⟩), (17080, ⟨0, 1⟩), (17081, ⟨0, 1⟩)] := by decide
  rw [heval]
  intro hch
  rw [List.chain'_cons] at hch
  exact absurd hch.1.1 (by decide)

/-- C2 (amended): for every pair of consecutive dates of the aggregated range,
the stored `totalClosed` is monotonically non-decreasing; `totalOpened` is not
(it decreases on a day with more closures than openings). -/
theorem C2_totalClosed_monotone (issues : List Issue) (s t : Int) :
    List.Chain' (fun p q => p.2.totalClosed ≤ q.2.totalClosed) (aggregate issues s t) := by
  rw [aggregate_closedForm]
  apply List.Pairwise.chain'
  unfold eachDayUntilToday
  rw [List.map_map]
  refine List.Pairwise.map _ ?_ (List.pairwise_lt_range _)
  intro a b hab
  simp only [Function.comp_apply, dayEntry]
  have hmono : closedInRange issues s (s + (a : Int)) ≤ closedInRange issues s (s + (b : Int)) :=
    closedInRange_mono issues s (by omega)
  exact_mod_cast hmono

/-- C3: the Daily Aggregator reproduces the spec's two worked examples.
Day 17079 is 2016-10-05, 1475625600 is 2016-10-05T00:00:00Z, and
1475712000 is 2016-10-06T00:00:00Z.
Example 1: one issue created 2016-10-05, closed 2016-10-06, range through
2016-10-07, yields {1,0}, {0,1}, {0,1}.
Example 2: two issues created 2016-10-05, one closed 2016-10-06 and one never
closed, range through 2016-10-06, yields {2,0} then {1,1}. -/
theorem C3_worked_examples :
    aggregate [⟨1475625600, some 1475712000⟩] 17079 17081 =
      [(17079, ⟨1, 0⟩), (17080, ⟨0, 1⟩), (17081, ⟨0, 1⟩)] ∧
    aggregate [⟨1475625600, some 1475712000⟩, ⟨1475625600, none⟩] 17079 17080 =
      [(17079, ⟨2, 0⟩), (17080, ⟨1, 1⟩)] := by
  decide

/-- C4: for every non-empty range `[start, today]` the aggregator's output has
exactly the days of that inclusive range as keys: the key list is the day
range itself, has no duplicates, and a day is a key iff it lies in the range. -/
theorem C4_one_entry_per_day (issues : List Issue) (s t : Int) (_h : s ≤ t) :
    ((aggregate issues s t).map Prod.fst = eachDayUntilToday s t) ∧
    ((aggregate issues s t).map Prod.fst).Nodup ∧
    (∀ d : Int, d ∈ (aggregate issues s t).map Prod.fst ↔ s ≤ d ∧ d ≤ t) := by
  have hkeys : (aggregate issues s t).map Prod.fst = eachDayUntilToday s t := by
    rw [aggregate_closedForm, List.map_map]
    have hid : (Prod.fst ∘ dayEntry issues s) = fun d => d := by
      funext d
      rfl
    rw [hid]
    exact List.map_id _
  refine ⟨hkeys, ?_, ?_⟩
  · rw [hkeys]
    exact eachDay_nodup s t
  · intro d
    rw [hkeys]
    exact mem_eachDay s t d

theorem C4_witness :
    ((aggregate [] 0 1).map Prod.fst = eachDayUntilToday 0 1) ∧
    ((aggregate [] 0 1).map Prod.fst).Nodup ∧
    (∀ d : Int, d ∈ (aggregate [] 0 1).map Prod.fst ↔ 0 ≤ d ∧ d ≤ 1) :=
  C4_one_entry_per_day [] 0 1 (by decide)

/-- C8: the Daily Aggregator is deterministic — it is a pure function of the
issue collection, the start date and today, so two runs on equal inputs
produce identical output mappings. -/
theorem C8_deterministic (issues1 issues2 : List Issue) (s1 s2 t1 t2 : Int)
    (h1 : issues1 = issues2) (h2 : s1 = s2) (h3 : t1 = t2) :
    aggregate issues1 s1 t1 = aggregate issues2 s2 t2 := by
  subst h1
  subst h2
  subst h3
  rfl

theorem C8_witness :
    aggregate [⟨0, none⟩] 0 1 = aggregate [⟨0, none⟩] 0 1 :=
  C8_deterministic [⟨0, none⟩] [⟨0, none⟩] 0 0 1 1 rfl rfl rfl

/-- C9: for every stored entry `(d, {totalOpened, totalClosed})`,
`totalOpened + totalClosed` equals the number of issues created on a day of
`[start, d]`, and `totalOpened` equals that number minus the number of issues
closed on a day of `[start, d]`. -/
theorem C9_sum_invariant (issues : List Issue) (s t : Int) :
    ∀ p ∈ aggregate issues s t,
      p.2.totalOpened + p.2.totalClosed = (openedInRange issues s p.1 : Int) ∧
      p.2.totalOpened = (openedInRange issues s p.1 : Int) - (closedInRange issues s p.1 : Int) := by
  intro p hp
  rw [aggregate_closedForm] at hp
  obtain ⟨d, _, rfl⟩ := List.mem_map.mp hp
  refine ⟨?_, ?_⟩ <;> simp [dayEntry]

theorem C9_witness :
    ((17079 : Int), (⟨1, 0⟩ : DayTotals)).2.totalOpened +
        ((17079 : Int), (⟨1, 0⟩ : DayTotals)).2.totalClosed =
      (openedInRange [⟨1475625600, some 1475712000⟩] 17079
        ((17079 : Int), (⟨1, 0⟩ : DayTotals)).1 : Int) ∧
    ((17079 : Int), (⟨1, 0⟩ : DayTotals)).2.totalOpened =
      (openedInRange [⟨1475625600, some 1475712000⟩] 17079
        ((17079 : Int), (⟨1, 0⟩ : DayTotals)).1 : Int) -
      (closedInRange [⟨1475625600, some 1475712000⟩] 17079
        ((17079 : Int), (⟨1, 0⟩ : DayTotals)).1 : Int) :=
  C9_sum_invariant [⟨1475625600, some 1475712000⟩] 17079 17081 (17079, ⟨1, 0⟩) (by decide)

theorem aggregateLoop_perm (issues1 issues2 : List Issue) (h : issues1.Perm issues2)
    (dates : List Int) :
    ∀ o c : Int, aggregateLoop issues1 dates o c = aggregateLoop issues2 dates o c := by
  induction dates with
  | nil =>
    intro o c
    rfl
  | cons d rest ih =>
    intro o c
    have ho : (issuesOpenedOn issues1 d).length = (issuesOpenedOn issues2 d).length := by
      rw [issuesOpenedOn, issuesOpenedOn, ← List.countP_eq_length_filter,
        ← List.countP_eq_length_filter]
      exact h.countP_eq _
    have hc : (issuesClosedOn issues1 d).length = (issuesClosedOn issues2 d).length := by
      rw [issuesClosedOn, issuesClosedOn, ← List.countP_eq_length_filter,
        ← List.countP_eq_length_filter]
      exact h.countP_eq _
    simp only [aggregateLoop, ho, hc, ih]

/-- C10: the Daily Aggregator's output is invariant under any permutation of
the input issue list: reordering the issues yields the identical
date-to-totals mapping. -/
theorem C10_perm_invariant (issues1 issues2 : List Issue) (s t : Int)
    (h : issues1.Perm issues2) :
    aggregate issues1 s t = aggregate issues2 s t :=
  aggregateLoop_perm issues1 issues2 h (eachDayUntilToday s t) 0 0

theorem C10_witness :
    aggregate [⟨86400, none⟩, ⟨0, some 86400⟩] 0 1 =
      aggregate [⟨0, some 86400⟩, ⟨86400, none⟩] 0 1 :=
  C10_perm_invariant [⟨86400, none⟩, ⟨0, some 86400⟩] [⟨0, some 86400⟩, ⟨86400, none⟩] 0 1
    (List.Perm.swap (⟨0, some 86400⟩ : Issue) (⟨86400, none⟩ : Issue) [])

/-- A raw item of a fetched page: GitHub's issues listing returns issues and
pull requests together; `pull_request` marks the latter. -/
structure RawIssue where
  pull_request : Bool
  created_at : Int
  closed_at : Option Int
deriving DecidableEq, Repr

/-- The projection `{ closed_at: issue.closed_at, created_at: issue.created_at }`
performed by `getIssues` when accumulating an issue. -/
def toIssue (r : RawIssue) : Issue := ⟨r.created_at, r.closed_at⟩

/-- The upstream page with the given 1-based page number; pages beyond the
given sequence are empty (the tracker is exhausted). -/
def pageAt (pages : List (List RawIssue)) (page : Nat) : List RawIssue :=
  pages.getD (page - 1) []

/-- The fetch loop of `getIssues` (history.ts lines 103-141): with `fuel`
iterations left under the `while (page <= hardLimit)` ceiling, fetch the page;
a non-empty page is filtered of pull requests, then each remaining item is
prepended (`unshift`) to the accumulator (the loop body re-checks
`pull_request` before the `unshift`), and the loop advances to the next page;
an empty page breaks out of the loop. Returns the accumulated issues and the
number of pages requested. -/
def getIssuesGo (pages : List (List RawIssue)) : Nat → Nat → List Issue → List Issue × Nat
  | 0, _, acc => (acc, 0)
  | fuel + 1, page, acc =>
    let issuesPage := pageAt pages page
    if issuesPage.length ≠ 0 then
      let filteredPage := issuesPage.filter (fun i => !i.pull_request)
      let acc2 := filteredPage.foldl (fun a i => if i.pull_request then a else toIssue i :: a) acc
      let r := getIssuesGo pages fuel (page + 1) acc2
      (r.1, r.2 + 1)
    else
      (acc, 1)

/-- The Issue Fetcher `getIssues`: run the fetch loop from page 1 with at most
`hardLimit` iterations, starting from an empty issue list. -/
def getIssues (pages : List (List RawIssue)) (hardLimit : Nat) : List Issue :=
  (getIssuesGo pages hardLimit 1 []).1

/-- Number of page requests `getIssues` makes against the tracker. -/
def pagesRequested (pages : List (List RawIssue)) (hardLimit : Nat) : Nat :=
  (getIssuesGo pages hardLimit 1 []).2

/-- Variant of the fetch loop accumulating the raw items instead of their
projections, to reason about the provenance of each returned issue. -/
def getIssuesRawGo (pages : List (List RawIssue)) : Nat → Nat → List RawIssue → List RawIssue × Nat
  | 0, _, acc => (acc, 0)
  | fuel + 1, page, acc =>
    let issuesPage := pageAt pages page
    if issuesPage.length ≠ 0 then
      let filteredPage := issuesPage.filter (fun i => !i.pull_request)
      let acc2 := filteredPage.foldl (fun a i => if i.pull_request then a else i :: a) acc
      let r := getIssuesRawGo pages fuel (page + 1) acc2
      (r.1, r.2 + 1)
    else
      (acc, 1)

/-- The raw items whose projections `getIssues` returns. -/
def getIssuesRaw (pages : List (List RawIssue)) (hardLimit : Nat) : List RawIssue :=
  (getIssuesRawGo pages hardLimit 1 []).1

theorem foldl_unshift_map (l : List RawIssue) :
    ∀ acc : List RawIssue,
      l.foldl (fun a i => if i.pull_request then a else toIssue i :: a) (acc.map toIssue) =
        (l.foldl (fun a i => if i.pull_request then a else i :: a) acc).map toIssue := by
  induction l with
  | nil =>
    intro acc
    rfl
  | cons i rest ih =>
    intro acc
    by_cases h : i.pull_request = true
    · simp only [List.foldl_cons, h, if_true]
      exact ih acc
    · simp only [List.foldl_cons, h, if_false, Bool.false_eq_true]
      simpa using ih (i :: acc)

theorem getIssuesGo_eq_raw (pages : List (List RawIssue)) :
    ∀ (fuel page : Nat) (acc : List RawIssue),
      getIssuesGo pages fuel page (acc.map toIssue) =
        (((getIssuesRawGo pages fuel page acc).1).map toIssue,
         (getIssuesRawGo pages fuel page acc).2) := by
  intro fuel
  induction fuel with
  | zero =>
    intro page acc
    rfl
  | succ fuel ih =>
    intro page acc
    simp only [getIssuesGo, getIssuesRawGo]
    split
    · rw [foldl_unshift_map, ih]
    · rfl

theorem mem_foldl_unshift (l : List RawIssue) :
    ∀ (acc : List RawIssue) (r : RawIssue),
      r ∈ l.foldl (fun a i => if i.pull_request then a else i :: a) acc →
        r ∈ acc ∨ r.pull_request = false := by
  induction l with
  | nil =>
    intro acc r h
    exact Or.inl h
  | cons i rest ih =>
    intro acc r h
    by_cases hp : i.pull_request = true
    · simp only [List.foldl_cons, hp, if_true] at h
      exact ih acc r h
    · simp only [List.foldl_cons, hp, if_false, Bool.false_eq_true] at h
      rcases ih (i :: acc) r h with hin | hpr
      · rcases List.mem_cons.mp hin with rfl | hin2
        · right
          simpa using hp
        · left
          exact hin2
      · right
        exact hpr

theorem getIssuesRawGo_no_pr (pages : List (List RawIssue)) :
    ∀ (fuel page : Nat) (acc : List RawIssue),
      (∀ r ∈ acc, r.pull_request = false) →
      ∀ r ∈ (getIssuesRawGo pages fuel page acc).1, r.pull_request = false := by
  intro fuel
  induction fuel with
  | zero =>
    intro page acc hacc
    exact hacc
  | succ fuel ih =>
    intro page acc hacc
    simp only [getIssuesRawGo]
    split
    · apply ih
      intro r hr
      rcases mem_foldl_unshift _ acc r hr with hin | hpr
      · exact hacc r hin
      · exact hpr
    · exact hacc

/-- C6: no item marked as a pull request ever appears in the Issue Fetcher's
returned issue list — every returned issue is the projection of a raw item
that is not a pull request — and pull requests contribute nothing to any
day's counts: aggregating the fetcher's output equals aggregating the
projections of the non-pull-request raw items only. -/
theorem C6_no_pull_requests (pages : List (List RawIssue)) (hardLimit : Nat) :
    (∀ r ∈ getIssuesRaw pages hardLimit, r.pull_request = false) ∧
    getIssues pages hardLimit = (getIssuesRaw pages hardLimit).map toIssue ∧
    (∀ s t : Int, aggregate (getIssues pages hardLimit) s t =
      aggregate (((getIssuesRaw pages hardLimit).filter (fun r => !r.pull_request)).map toIssue)
        s t) := by
  have hnp : ∀ r ∈ getIssuesRaw pages hardLimit, r.pull_request = false := by
    apply getIssuesRawGo_no_pr pages hardLimit 1 []
    intro r hr
    cases hr
  have heq : getIssues pages hardLimit = (getIssuesRaw pages hardLimit).map toIssue := by
    have h0 := getIssuesGo_eq_raw pages hardLimit 1 []
    simpa [getIssues, getIssuesRaw] using congrArg Prod.fst h0
  refine ⟨hnp, heq, ?_⟩
  intro s t
  have hfilter : (getIssuesRaw pages hardLimit).filter (fun r => !r.pull_request) =
      getIssuesRaw pages hardLimit := by
    apply List.filter_eq_self.mpr
    intro a ha
    simp [hnp a ha]
  rw [hfilter, heq]

theorem getIssuesGo_le (pages : List (List RawIssue)) :
    ∀ (fuel page : Nat) (acc : List Issue), (getIssuesGo pages fuel page acc).2 ≤ fuel := by
  intro fuel
  induction fuel with
  | zero =>
    intro page acc
    exact Nat.le_refl 0
  | succ fuel ih =>
    intro page acc
    simp only [getIssuesGo]
    split
    · have := ih (page + 1)
        ((pageAt pages page).filter (fun i => !i.pull_request) |>.foldl
          (fun a i => if i.pull_request then a else toIssue i :: a) acc)
      omega
    · omega

theorem getIssuesGo_stops (pages : List (List RawIssue)) :
    ∀ (fuel page k : Nat) (acc : List Issue),
      page ≤ k → k < page + fuel →
      (∀ j, page ≤ j → j < k → pageAt pages j ≠ []) →
      pageAt pages k = [] →
      (getIssuesGo pages fuel page acc).2 = k + 1 - page := by
  intro fuel
  induction fuel with
  | zero =>
    intro page k acc h1 h2 h3 h4
    omega
  | succ fuel ih =>
    intro page k acc h1 h2 h3 h4
    simp only [getIssuesGo]
    split
    · rename_i hne
      have hpk : page ≠ k := by
        intro hek
        rw [hek, h4] at hne
        exact hne rfl
      have hrec := ih (page + 1) k
        ((pageAt pages page).filter (fun i => !i.pull_request) |>.foldl
          (fun a i => if i.pull_request then a else toIssue i :: a) acc)
        (by omega) (by omega) (fun j hj1 hj2 => h3 j (by omega) hj2) h4
      omega
    · rename_i hne
      have hk : k = page := by
        by_contra hkp
        exact h3 page (Nat.le_refl page) (by omega) (List.length_eq_zero.mp (by omega))
      omega

/-- C7: for every page-count ceiling N, the Issue Fetcher requests at most N
pages; and when page k is the first empty page and k is within the ceiling,
the fetcher requests exactly the pages 1..k, stopping at the empty page
even though the ceiling has not been reached. -/
theorem C7_page_ceiling (pages : List (List RawIssue)) (N : Nat) :
    pagesRequested pages N ≤ N ∧
    (∀ k, 1 ≤ k → k ≤ N → (∀ j, 1 ≤ j → j < k → pageAt pages j ≠ []) →
      pageAt pages k = [] → pagesRequested pages N = k) := by
  constructor
  · exact getIssuesGo_le pages N 1 []
  · intro k h1 h2 h3 h4
    have hstop : (getIssuesGo pages N 1 []).2 = k + 1 - 1 :=
      getIssuesGo_stops pages N 1 k [] h1 (by omega) h3 h4
    have : pagesRequested pages N = k + 1 - 1 := hstop
    omega

theorem C7_witness :
    pagesRequested [[⟨false, 0, none⟩], []] 5 ≤ 5 ∧
    pagesRequested [[⟨false, 0, none⟩], []] 5 = 2 :=
  ⟨(C7_page_ceiling [[⟨false, 0, none⟩], []] 5).1,
   (C7_page_ceiling [[⟨false, 0, none⟩], []] 5).2 2 (by omega) (by omega)
     (by
       intro j hj1 hj2
       have hj : j = 1 := by omega
       subst hj
       decide)
     (by decide)⟩

/-- Error kinds of the Persistence Gateway, as distinguished by the handler's
catch block: Prisma code P2002 (uniqueness violation) versus anything else. -/
inductive DbError where
  | duplicateKey
  | otherFailure
deriving DecidableEq, Repr

/-- Modelled from the spec: the Persistence Gateway (Prisma client and
`prisma.$transaction`, external collaborators not in the source tree).
`createManyDaysTransactional` persists a batch of Day Records all-or-nothing:
dates are unique across the whole stored history, so if any date of the
resulting history would repeat, nothing is persisted and the duplicate-key
error (Prisma P2002) is raised; otherwise all records are appended. -/
def createManyDaysTransactional (store records : List (Int × DayTotals)) :
    Except DbError (List (Int × DayTotals)) :=
  if ((store ++ records).map Prod.fst).Nodup then Except.ok (store ++ records)
  else Except.error DbError.duplicateKey

/-- The handler's responses: HTTP 405, 401, the JSON date-to-totals mapping,
HTTP 400 "Already exists" (Prisma P2002), and HTTP 500 "Internal server
error" (history.ts lines 79-88). -/
inductive ApiResponse where
  | methodNotAllowed
  | unauthorized
  | okJson (dates : List (Int × DayTotals))
  | alreadyExists
  | internalServerError
deriving DecidableEq, Repr

/-- The persistence step of the handler (history.ts lines 67-88): run the bulk
transactional write, return the mapping on success, and map a duplicate-key
error to the 400 "Already exists" response and any other error to the 500
response; on error the datastore keeps its prior contents. -/
def persistAndRespond (store dates : List (Int × DayTotals)) :
    List (Int × DayTotals) × ApiResponse :=
  match createManyDaysTransactional store dates with
  | Except.ok store2 => (store2, ApiResponse.okJson dates)
  | Except.error DbError.duplicateKey => (store, ApiResponse.alreadyExists)
  | Except.error DbError.otherFailure => (store, ApiResponse.internalServerError)

/-- C5: a bulk persistence attempt containing a date that already exists in
the datastore leaves the datastore in its prior state (nothing of the batch
is persisted) and reports the duplicate-key response, which is distinct from
the generic internal-failure response. -/
theorem C5_duplicate_leaves_store (store dates : List (Int × DayTotals))
    (h : ∃ p ∈ dates, p.1 ∈ store.map Prod.fst) :
    persistAndRespond store dates = (store, ApiResponse.alreadyExists) ∧
    ApiResponse.alreadyExists ≠ ApiResponse.internalServerError := by
  obtain ⟨p, hp, hdup⟩ := h
  have hnotnodup : ¬ ((store ++ dates).map Prod.fst).Nodup := by
    rw [List.map_append, List.nodup_append]
    intro ⟨_, _, hdisj⟩
    exact hdisj hdup (List.mem_map_of_mem Prod.fst hp)
  constructor
  · rw [persistAndRespond, createManyDaysTransactional, if_neg hnotnodup]
  · intro hcontra
    cases hcontra

theorem C5_witness :
    (∃ p ∈ [((0 : Int), (⟨3, 4⟩ : DayTotals))],
      p.1 ∈ ([((0 : Int), (⟨1, 2⟩ : DayTotals))].map Prod.fst)) ∧
    persistAndRespond [((0 : Int), (⟨1, 2⟩ : DayTotals))] [((0 : Int), (⟨3, 4⟩ : DayTotals))] =
      ([((0 : Int), (⟨1, 2⟩ : DayTotals))], ApiResponse.alreadyExists) ∧
    ApiResponse.alreadyExists ≠ ApiResponse.internalServerError :=
  ⟨by decide,
   C5_duplicate_leaves_store [((0 : Int), (⟨1, 2⟩ : DayTotals))]
     [((0 : Int), (⟨3, 4⟩ : DayTotals))] (by decide)⟩
